import Mathlib

/-!
Verification of the leaf Oracle schema deployment engine.

This file embeds the diff engine (src/delta/delta.rs), the entity status
operations (src/entities), the changeset/rollback repository queries
(src/repo) and the deployment service orchestration
(src/services/deployment_service.rs) as executable Lean definitions, and
proves or refutes the specified properties about them.

Rust strings are modelled as Lean strings; Rust HashMap values are modelled
as association lists with replace-on-insert semantics (iteration order is
the insertion order; the Rust iteration order is unspecified, and none of
the proved properties depend on it beyond what the code guarantees).
A Rust function that can panic is modelled as returning an Option, where
none marks the panic.
-/

namespace Leaf

/-! ## String helpers mirroring the Rust std operations used by the code -/

/-- Models Rust char::to_uppercase restricted to its ASCII behaviour
(the code only ever feeds SQL keywords and identifiers through it). -/
def rustToUppercase (s : String) : String := ⟨s.toList.map Char.toUpper⟩

/-- Models the SQL LOWER function on ASCII data. -/
def sqlLower (s : String) : String := ⟨s.toList.map Char.toLower⟩

/-- pat is a leading run of s. -/
def charsIsPre : List Char → List Char → Bool
  | [], _ => true
  | _ :: _, [] => false
  | a :: as, b :: bs => a == b && charsIsPre as bs

/-- pat occurs as a contiguous run somewhere in s. -/
def charsHasSub (pat : List Char) : List Char → Bool
  | [] => charsIsPre pat []
  | b :: bs => charsIsPre pat (b :: bs) || charsHasSub pat bs

/-- Models Rust str::starts_with. -/
def strStartsWith (s pat : String) : Bool := charsIsPre pat.toList s.toList

/-- Models Rust str::contains for a literal pattern. -/
def strContainsSub (s pat : String) : Bool := charsHasSub pat.toList s.toList

/-- Models Rust str::trim. -/
def rustTrim (s : String) : String :=
  ⟨((s.toList.dropWhile Char.isWhitespace).reverse.dropWhile Char.isWhitespace).reverse⟩

def splitWsAux : List Char → List Char → List String
  | [], acc => if acc.isEmpty then [] else [⟨acc.reverse⟩]
  | c :: cs, acc =>
    if c.isWhitespace then
      if acc.isEmpty then splitWsAux cs [] else (⟨acc.reverse⟩ : String) :: splitWsAux cs []
    else splitWsAux cs (c :: acc)

/-- Models Rust str::split_whitespace collected to a vector. -/
def splitWs (s : String) : List String := splitWsAux s.toList []

def quoteChar : Char := Char.ofNat 34

/-- Models Rust str::trim_matches with the double-quote character. -/
def trimMatchesQuote (s : String) : String :=
  ⟨((s.toList.dropWhile (fun c => c == quoteChar)).reverse.dropWhile
      (fun c => c == quoteChar)).reverse⟩

/-- Byte index of the first occurrence of c, as Rust str::find on ASCII data. -/
def firstIdxOf (c : Char) : List Char → Option Nat
  | [] => none
  | b :: bs => if b == c then some 0 else (firstIdxOf c bs).map (· + 1)

/-- Byte index of the last occurrence of c, as Rust str::rfind on ASCII data. -/
def lastIdxOf (c : Char) (cs : List Char) : Option Nat :=
  (firstIdxOf c cs.reverse).map (fun i => cs.length - 1 - i)

/-! ## The catalog Object and the Delta record (src/types) -/

structure Object where
  owner : String
  object_name : String
  object_type : String
  last_ddl_time : Nat
  ddl : Option String
deriving Repr, DecidableEq

structure Delta where
  object_type : String := ""
  object_name : String := ""
  object_owner : String := ""
  source_ddl_time : Option Nat := none
  source_ddl : Option String := none
  target_ddl_time : Option Nat := none
  target_ddl : Option String := none
  scripts : List String := []
  rollback_scripts : List String := []
deriving Repr, DecidableEq

structure Scripts where
  scripts : List String
  rollback_scripts : List String
deriving Repr, DecidableEq

/-! ## The diff engine (src/delta/delta.rs) -/

def getDeleteScripts (target : Object) : List String :=
  ["DROP " ++ target.object_type ++ " " ++ target.owner ++ "." ++ target.object_name]

/-- get_insert_scripts unwraps the DDL; none models the panic on a missing DDL. -/
def getInsertScripts (source : Object) : Option (List String) :=
  source.ddl.map (fun d => [d])

/-- The comma-splitting loop of extract_columns: walks the column section
tracking parenthesis depth, flushing the current entry at top-level commas,
dropping empty and constraint entries. -/
def isConstraintLine (line : String) : Bool :=
  let upper := rustToUppercase (rustTrim line)
  strStartsWith upper "CONSTRAINT" || strStartsWith upper "PRIMARY KEY" ||
  strStartsWith upper "FOREIGN KEY" || strStartsWith upper "UNIQUE" ||
  strStartsWith upper "CHECK" || strStartsWith upper "INDEX" ||
  strStartsWith (rustTrim line) "--"

def extractLoop : List Char → Int → List Char → List String
  | [], _, current =>
      let col := rustTrim ⟨current⟩
      if col ≠ "" && !isConstraintLine col then [col] else []
  | c :: cs, depth, current =>
      if c == '(' then extractLoop cs (depth + 1) (current ++ [c])
      else if c == ')' then extractLoop cs (depth - 1) (current ++ [c])
      else if c == ',' && depth == 0 then
        let col := rustTrim ⟨current⟩
        if col ≠ "" && !isConstraintLine col then col :: extractLoop cs 0 []
        else extractLoop cs 0 []
      else extractLoop cs depth (current ++ [c])

/-- extract_columns: takes the text between the first opening and last closing
parenthesis and splits it into column entries. The Rust code slices
ddl with the byte range from start+1 to the last closing parenthesis, which
panics when that range is inverted; none models that panic. -/
def extractColumns (ddl : String) : Option (List String) :=
  match firstIdxOf '(' ddl.toList with
  | none => some []
  | some start =>
    match lastIdxOf ')' ddl.toList with
    | none => some []
    | some stop =>
      if start + 1 ≤ stop then
        some (extractLoop ((ddl.toList.drop (start + 1)).take (stop - (start + 1))) 0 [])
      else none

/-- parse_column: first whitespace token (quotes stripped) is the name,
kept only when a data type follows (at least two tokens). -/
def parseColumn (colDef : String) : Option (String × String) :=
  let trimmed := rustTrim colDef
  if trimmed = "" then none
  else
    match splitWs trimmed with
    | [] => none
    | name :: rest =>
      if rest.isEmpty then none else some (trimMatchesQuote name, trimmed)

/-! Column maps: Rust builds a HashMap from name to definition; insertion
replaces the value for an existing key. We model it as an association list
with replace-or-append insertion, so keys are never duplicated. -/

abbrev ColMap := List (String × String)

def alookup : ColMap → String → Option String
  | [], _ => none
  | (k, v) :: rest, n => if k == n then some v else alookup rest n

def containsKey (m : ColMap) (k : String) : Bool := (alookup m k).isSome

def insertPair (m : ColMap) (k v : String) : ColMap :=
  if containsKey m k then m.map (fun p => if p.1 == k then (p.1, v) else p)
  else m ++ [(k, v)]

def buildColMap (cols : List String) : ColMap :=
  cols.foldl
    (fun m c => match parseColumn c with
      | some (n, d) => insertPair m n d
      | none => m) []

/-- The ADD and DROP COLUMN filter of get_update_scripts: the column name
is absent from the other map. -/
def missingPred (other : ColMap) (p : String × String) : Bool :=
  !containsKey other p.1

/-- The MODIFY filter of get_update_scripts: the column exists in the other
map with a different definition. -/
def modifyPred (other : ColMap) (p : String × String) : Bool :=
  match alookup other p.1 with
  | some td => decide (td ≠ p.2)
  | none => false

/-- get_update_scripts; none models a panic (unwrap on a missing DDL for a
non-TABLE object, or the slice panic inside extract_columns). -/
def getUpdateScripts (source target : Object) : Option (List String) :=
  if source.ddl = target.ddl then some []
  else if source.object_type ≠ "TABLE" then source.ddl.map (fun d => [d])
  else if source.ddl.isNone || target.ddl.isNone then some []
  else do
    let sddl ← source.ddl
    let tddl ← target.ddl
    let sourceCols ← extractColumns sddl
    let targetCols ← extractColumns tddl
    let sourceMap := buildColMap sourceCols
    let targetMap := buildColMap targetCols
    let adds := (sourceMap.filter (missingPred targetMap)).map
      (fun p => "ALTER TABLE " ++ source.owner ++ "." ++ source.object_name ++ " ADD " ++ p.2)
    let drops := (targetMap.filter (missingPred sourceMap)).map
      (fun p => "ALTER TABLE " ++ source.owner ++ "." ++ source.object_name ++
        " DROP COLUMN \"" ++ p.1 ++ "\"")
    let mods := (sourceMap.filter (modifyPred targetMap)).map
      (fun p => "ALTER TABLE " ++ source.owner ++ "." ++ source.object_name ++ " MODIFY " ++ p.2)
    some (adds ++ drops ++ mods)

/-- find_scripts. The outer Option models panics; the inner Option is the
Rust return value (None for the none/none case). -/
def findScripts : Option Object → Option Object → Option (Option Scripts)
  | none, some t => (getInsertScripts t).map (fun ins => some ⟨getDeleteScripts t, ins⟩)
  | some s, none => (getInsertScripts s).map (fun ins => some ⟨ins, getDeleteScripts s⟩)
  | some s, some t => do
      let fwd ← getUpdateScripts s t
      let bwd ← getUpdateScripts t s
      pure (some ⟨fwd, bwd⟩)
  | none, none => some none

/-! find_deltas (src/delta/delta.rs) with objects_as_map (src/utils/utils.rs). -/

abbrev Triple := String × String × String

def tripleOf (o : Object) : Triple := (o.owner, o.object_name, o.object_type)

def insertTriple (m : List (Triple × Object)) (k : Triple) (o : Object) :
    List (Triple × Object) :=
  if (m.filter (fun p => p.1 == k)).isEmpty then m ++ [(k, o)]
  else m.map (fun p => if p.1 == k then (p.1, o) else p)

/-- objects_as_map: duplicate triples keep the last object. -/
def objectsAsMap (objects : List Object) : List (Triple × Object) :=
  objects.foldl (fun m o => insertTriple m (tripleOf o) o) []

def lookupTriple : List (Triple × Object) → Triple → Option Object
  | [], _ => none
  | (k, o) :: rest, n => if k == n then some o else lookupTriple rest n

def mkSourceDelta (source : Object) (target : Option Object) (scr : Option Scripts) : Delta :=
  { object_type := source.object_type
    object_name := source.object_name
    object_owner := source.owner
    source_ddl_time := some source.last_ddl_time
    source_ddl := source.ddl
    target_ddl_time := target.map (·.last_ddl_time)
    target_ddl := target.map (fun t => t.ddl.getD "")
    scripts := (scr.map (·.scripts)).getD []
    rollback_scripts := (scr.map (·.rollback_scripts)).getD [] }

def mkTargetDelta (target : Object) (scr : Option Scripts) : Delta :=
  { object_type := target.object_type
    object_name := target.object_name
    object_owner := target.owner
    source_ddl := none
    target_ddl := target.ddl
    target_ddl_time := some target.last_ddl_time
    scripts := (scr.map (·.scripts)).getD []
    rollback_scripts := (scr.map (·.rollback_scripts)).getD [] }

/-- The source pass of find_deltas: one delta per source object. -/
def sourcePass (tm : List (Triple × Object)) : List Object → Option (List Delta)
  | [] => some []
  | s :: rest => do
      let target := lookupTriple tm (tripleOf s)
      let scr ← findScripts (some s) target
      let ds ← sourcePass tm rest
      pure (mkSourceDelta s target scr :: ds)

/-- The target pass of find_deltas: targets whose triple was not processed
by the source pass become deletion deltas. -/
def targetPass (processed : List Triple) : List Object → Option (List Delta)
  | [] => some []
  | t :: rest =>
      if processed.contains (tripleOf t) then targetPass processed rest
      else do
        let scr ← findScripts none (some t)
        let ds ← targetPass processed rest
        pure (mkTargetDelta t scr :: ds)

/-- find_deltas; none models a panic inside some find_scripts call. -/
def findDeltas (sources targets : List Object) : Option (List Delta) := do
  let tm := objectsAsMap targets
  let ds1 ← sourcePass tm sources
  let ds2 ← targetPass (sources.map tripleOf) targets
  pure (ds1 ++ ds2)

/-! with_disabled_drop_types_excluded (src/delta/delta.rs). -/

def isDisabledDropScript (disabledSet : List String) (script : String) : Bool :=
  let upper := rustToUppercase script
  disabledSet.any (fun dt => strContainsSub upper ("DROP " ++ rustToUppercase dt))

def filterDeltaList (disabledSet : List String) : List Delta → List Delta
  | [] => []
  | d :: rest =>
      let nd := { d with scripts := d.scripts.filter (fun s => !isDisabledDropScript disabledSet s) }
      if nd.scripts.isEmpty then filterDeltaList disabledSet rest
      else nd :: filterDeltaList disabledSet rest

def withDisabledDropTypesExcluded (deltas : List Delta) (ddt : Option (List String)) :
    List Delta :=
  match ddt with
  | none => deltas
  | some l => filterDeltaList (l.map rustToUppercase) deltas

/-! ## Modelled-from-spec wrapper

The deployment service calls a three argument find_deltas re-exported from
the delta module; that module file (the re-export with the
disable_all_drops parameter) is not part of the snapshot, only its caller
and the two argument worker above are. -/

/-- Modelled from the spec: the three argument find_deltas of the delta
module (its module file is missing from the snapshot; only
src/services/deployment_service.rs calls it). Per section 4.2.1, when
disable_all_drops is true the target-only pass is skipped entirely, so no
DROP deltas are emitted for missing source objects. -/
def findDeltasWithDisableAllDrops (sources targets : List Object)
    (disableAllDrops : Bool) : Option (List Delta) := do
  let tm := objectsAsMap targets
  let ds1 ← sourcePass tm sources
  if disableAllDrops then pure ds1
  else do
    let ds2 ← targetPass (sources.map tripleOf) targets
    pure (ds1 ++ ds2)

/-! ## Status enums (src/types) -/

inductive PlanStatus
  | idle | running | error | success | rollingBack | rolledBack | rollbackError
deriving Repr, DecidableEq

inductive DeploymentStatus
  | idle | running | error | success | rollingBack | rolledBack | rollbackError
deriving Repr, DecidableEq

inductive ChangesetStatus
  | idle | running | success | error | warning | rollingBack | rolledBack | rollbackError
deriving Repr, DecidableEq

inductive ChangeStatus
  | idle | running | success | error | rollingBack | rolledBack | rollbackError
deriving Repr, DecidableEq

/-- The terminal statuses named by the spec invariant. -/
def deploymentStatusTerminal : DeploymentStatus → Bool
  | .success | .error | .rolledBack | .rollbackError => true
  | _ => false

/-! ## Persisted rows and the entity ActiveModel operations (src/entities).
Timestamps are modelled as Nat instants passed in explicitly (the Rust code
reads the wall clock). -/

structure DeploymentRow where
  id : Int := 0
  plan_id : Int := 0
  status : DeploymentStatus := .idle
  errors : Option (List String) := none
  started_at : Option Nat := none
  ended_at : Option Nat := none
  updated_at : Option Nat := none
deriving Repr, DecidableEq

/-- deployment::ActiveModel::set_status: stamps started_at on RUNNING and
ended_at on SUCCESS or ERROR; every other status only changes status and
updated_at. -/
def deploymentSetStatus (m : DeploymentRow) (status : DeploymentStatus) (now : Nat) :
    DeploymentRow :=
  let m := match status with
    | .running => { m with started_at := some now }
    | .success | .error => { m with ended_at := some now }
    | _ => m
  { m with status := status, updated_at := some now }

structure ChangesetRow where
  id : Int := 0
  deployment_id : Int := 0
  object_type : String := ""
  object_name : String := ""
  object_owner : String := ""
  source_ddl : Option String := none
  target_ddl : Option String := none
  status : ChangesetStatus := .idle
  errors : Option (List String) := none
  started_at : Option Nat := none
  ended_at : Option Nat := none
  updated_at : Option Nat := none
deriving Repr, DecidableEq

/-- changeset::ActiveModel::set_status. -/
def changesetSetStatus (m : ChangesetRow) (status : ChangesetStatus) (now : Nat) :
    ChangesetRow :=
  { m with status := status, updated_at := some now }

/-- changeset::ActiveModel::start. -/
def changesetStart (m : ChangesetRow) (now : Nat) : ChangesetRow :=
  { changesetSetStatus m .running now with started_at := some now }

/-- changeset::ActiveModel::end: the error branch returns before stamping
ended_at. -/
def changesetEnd (m : ChangesetRow) (errors : Option (List String)) (now : Nat) :
    ChangesetRow :=
  match errors with
  | some errs => { changesetSetStatus m .error now with errors := some errs }
  | none => { changesetSetStatus m .success now with ended_at := some now }

structure ChangeRow where
  id : Int := 0
  changeset_id : Int := 0
  script : String := ""
  rollback_script : String := ""
  status : ChangeStatus := .idle
  error : Option String := none
  started_at : Option Nat := none
  ended_at : Option Nat := none
  updated_at : Option Nat := none
deriving Repr, DecidableEq

/-- change::ActiveModel::set_status (does not touch updated_at). -/
def changeSetStatus (m : ChangeRow) (status : ChangeStatus) : ChangeRow :=
  { m with status := status }

/-- change::ActiveModel::start. -/
def changeStart (m : ChangeRow) (now : Nat) : ChangeRow :=
  { changeSetStatus m .running with started_at := some now }

/-- change::ActiveModel::end: the error branch returns before stamping
ended_at. -/
def changeEnd (m : ChangeRow) (error : Option String) (now : Nat) : ChangeRow :=
  match error with
  | some e => { changeSetStatus m .error with error := some e }
  | none => { changeSetStatus m .success with ended_at := some now }

/-! ## Changeset composite fetch ordering (src/repo/changeset_repo.rs)

Both get_by_deployment_id_with_changes and
find_by_deployment_id_with_changes order by
CASE LOWER(object_type) ... END multiplied by 1 when target_ddl is null and
-1 otherwise. -/

def typePrecedence (t : String) : Int :=
  if t = "table" then 100
  else if t = "sequence" then 200
  else if t = "view" then 300
  else if t = "package" then 400
  else if t = "package body" then 500
  else if t = "procedure" then 600
  else if t = "function" then 700
  else if t = "index" then 800
  else if t = "trigger" then 900
  else 1000

/-- The ORDER BY expression of the composite fetch. -/
def changesetOrderKey (cs : ChangesetRow) : Int :=
  typePrecedence (sqlLower cs.object_type) * (if cs.target_ddl.isNone then 1 else -1)

def csLe (a b : ChangesetRow) : Prop := changesetOrderKey a ≤ changesetOrderKey b

instance : DecidableRel csLe := fun a b =>
  inferInstanceAs (Decidable (changesetOrderKey a ≤ changesetOrderKey b))

instance : IsTotal ChangesetRow csLe :=
  ⟨fun a b => Int.le_total (changesetOrderKey a) (changesetOrderKey b)⟩

instance : IsTrans ChangesetRow csLe := ⟨fun _ _ _ hab hbc => le_trans hab hbc⟩

/-- The composite fetch: changesets of the deployment in ORDER BY key order,
each with its changes. The SQL guarantees only the key ordering; we realize
it with insertion sort. -/
def getChangesetsWithChangesOrdered (changesets : List ChangesetRow)
    (changes : List ChangeRow) (deployment_id : Int) :
    List (ChangesetRow × List ChangeRow) :=
  ((changesets.filter (fun cs => cs.deployment_id == deployment_id)).insertionSort csLe).map
    (fun cs => (cs, changes.filter (fun c => c.changeset_id == cs.id)))

/-! ## Changeset materialization during live prepare
(DeploymentService::create_changesets). -/

def changesetOfDelta (deployment_id : Int) (d : Delta) : ChangesetRow :=
  { deployment_id := deployment_id
    object_type := d.object_type
    object_name := d.object_name
    object_owner := d.object_owner
    source_ddl := d.source_ddl
    target_ddl := d.target_ddl }

/-- create_changesets in live mode: deltas with equal source and target DDL
are skipped; for the others one changeset is created and one change per
zipped (script, rollback_script) pair. -/
def createChangesets (deployment_id : Int) :
    List Delta → List (ChangesetRow × List (String × String))
  | [] => []
  | d :: rest =>
      if d.source_ddl = d.target_ddl then createChangesets deployment_id rest
      else (changesetOfDelta deployment_id d, d.scripts.zip d.rollback_scripts)
        :: createChangesets deployment_id rest

/-! ## Rollback pipeline (DeploymentService::prepare_rollback,
execute_rollbacks; src/repo/rollback_repo.rs)

prepare_rollback iterates the composite fetch in reverse changeset order
and, within each changeset, its changes in forward order, inserting one
rollback row per change; get_rollbacks_with_changes_and_changesets returns
rollbacks by ascending id, which is the insertion order, and
execute_rollbacks runs them in that order. -/

/-- The change ids and scripts of the rollback rows in the order they are
created and executed. -/
def rollbackCreationOrder (composite : List (ChangesetRow × List ChangeRow)) :
    List (Int × String) :=
  composite.reverse.flatMap (fun p => p.2.map (fun c => (c.id, c.rollback_script)))

/-- End to end rollback execution order for a deployment. -/
def rollbackExecutionOrder (changesets : List ChangesetRow) (changes : List ChangeRow)
    (deployment_id : Int) : List (Int × String) :=
  rollbackCreationOrder (getChangesetsWithChangesOrdered changesets changes deployment_id)

/-- The apply-time order of the changes of a deployment (composite order,
changes in stored order within each changeset). -/
def applyOrderChanges (composite : List (ChangesetRow × List ChangeRow)) :
    List ChangeRow :=
  composite.flatMap (fun p => p.2)

/-! ## The apply phase (DeploymentService::apply) over a bookkeeping
database state. The Oracle execution of one script is abstracted as a
function from script text to a success or an error message (the SQL client
capability); everything else follows the Rust control flow. -/

structure PlanRow where
  id : Int := 0
  name : String := ""
  status : PlanStatus := .idle
  source_connection_id : Int := 0
  target_connection_id : Int := 0
deriving Repr, DecidableEq

structure Db where
  plans : List PlanRow := []
  deployments : List DeploymentRow := []
  changesets : List ChangesetRow := []
  changes : List ChangeRow := []
deriving Repr, DecidableEq

inductive PlanNotRunnableReason
  | alreadyRunning | sourceInUse | targetInUse
deriving Repr, DecidableEq

inductive ApplyError
  | deploymentNotFound
  | planNotFound
  | planNotRunnable (r : PlanNotRunnableReason)
  | deployErrors (count : Nat) (errors : List String)
deriving Repr, DecidableEq

def findPlan (db : Db) (id : Int) : Option PlanRow :=
  db.plans.find? (fun p => p.id == id)

def findDeployment (db : Db) (id : Int) : Option DeploymentRow :=
  db.deployments.find? (fun d => d.id == id)

/-- PlanRepository::is_connection_in_use: any plan referencing the
connection as source or target whose status is RUNNING. -/
def isConnectionInUse (db : Db) (cid : Int) : Bool :=
  db.plans.any (fun q =>
    (q.source_connection_id == cid || q.target_connection_id == cid) &&
    q.status == PlanStatus.running)

def updatePlanStatus (db : Db) (id : Int) (st : PlanStatus) : Db :=
  { db with plans := db.plans.map (fun p => if p.id == id then { p with status := st } else p) }

def deploymentSetStatusDb (db : Db) (id : Int) (st : DeploymentStatus) (now : Nat) : Db :=
  { db with deployments :=
      db.deployments.map (fun d => if d.id == id then deploymentSetStatus d st now else d) }

def saveChangeset (db : Db) (row : ChangesetRow) : Db :=
  { db with changesets := db.changesets.map (fun c => if c.id == row.id then row else c) }

def saveChange (db : Db) (row : ChangeRow) : Db :=
  { db with changes := db.changes.map (fun c => if c.id == row.id then row else c) }

/-- The inner change loop of apply: start and save each change, execute its
script, end it with the outcome, and abort after a failure when fail_fast.
Returns the state, the changeset errors, the deployment errors and whether
fail_fast aborted. -/
def applyChangesLoop (execF : String → Except String Unit) (failFast : Bool) (now : Nat)
    (objectName : String) :
    List ChangeRow → Db → List String → List String → (Db × List String × List String × Bool)
  | [], db, csErrs, gErrs => (db, csErrs, gErrs, false)
  | ch :: rest, db, csErrs, gErrs =>
      let started := changeStart ch now
      let db := saveChange db started
      match execF ch.script with
      | .ok _ =>
          let db := saveChange db (changeEnd started none now)
          applyChangesLoop execF failFast now objectName rest db csErrs gErrs
      | .error e =>
          let msg := "Change " ++ toString ch.id ++ " (" ++ objectName ++ "): " ++ e
          let db := saveChange db (changeEnd started (some e) now)
          if failFast then (db, csErrs ++ [msg], gErrs ++ [msg], true)
          else applyChangesLoop execF failFast now objectName rest db (csErrs ++ [msg])
            (gErrs ++ [msg])

/-- The changeset loop of apply. -/
def applyChangesetsLoop (execF : String → Except String Unit) (failFast : Bool) (now : Nat) :
    List (ChangesetRow × List ChangeRow) → Db → List String → (Except ApplyError Unit × Db)
  | [], db, gErrs =>
      if gErrs.isEmpty then (.ok (), db)
      else (.error (.deployErrors gErrs.length gErrs), db)
  | (cs, chs) :: rest, db, gErrs =>
      if chs.isEmpty then applyChangesetsLoop execF failFast now rest db gErrs
      else
        let csStarted := changesetStart cs now
        let db := saveChangeset db csStarted
        let r := applyChangesLoop execF failFast now cs.object_name chs db [] gErrs
        let db := r.1
        let csErrs := r.2.1
        let gErrs := r.2.2.1
        if r.2.2.2 then (.error (.deployErrors 1 gErrs), db)
        else
          let db := saveChangeset db
            (changesetEnd csStarted (if csErrs.isEmpty then none else some csErrs) now)
          applyChangesetsLoop execF failFast now rest db gErrs

/-- DeploymentService::apply: load the deployment and plan, validate
runnability (validate_plan_is_runnable), then transition plan and
deployment to RUNNING, fetch the ordered composite and run the loops. -/
def applyDeployment (db : Db) (execF : String → Except String Unit) (deployment_id : Int)
    (failFast : Bool) (now : Nat) : Except ApplyError Unit × Db :=
  match findDeployment db deployment_id with
  | none => (.error .deploymentNotFound, db)
  | some dep =>
    match findPlan db dep.plan_id with
    | none => (.error .planNotFound, db)
    | some plan =>
      if plan.status == PlanStatus.running then
        (.error (.planNotRunnable .alreadyRunning), db)
      else if isConnectionInUse db plan.source_connection_id then
        (.error (.planNotRunnable .sourceInUse), db)
      else if isConnectionInUse db plan.target_connection_id then
        (.error (.planNotRunnable .targetInUse), db)
      else
        let db1 := updatePlanStatus db plan.id PlanStatus.running
        let db2 := deploymentSetStatusDb db1 deployment_id DeploymentStatus.running now
        let composite := getChangesetsWithChangesOrdered db2.changesets db2.changes deployment_id
        if composite.isEmpty then (.ok (), db2)
        else applyChangesetsLoop execF failFast now composite db2 []

/-! ## Claim-side formulations

These definitions follow the wording of spec claims, to be compared against
the embedded code. -/

/-- A raw splitter on top level commas (parenthesis depth zero), following
the wording of the column extraction description; no entry is discarded
here. -/
def splitTopLevel : List Char → Int → List Char → List (List Char)
  | [], _, current => [current]
  | c :: cs, depth, current =>
      if c == '(' then splitTopLevel cs (depth + 1) (current ++ [c])
      else if c == ')' then splitTopLevel cs (depth - 1) (current ++ [c])
      else if c == ',' && depth == 0 then current :: splitTopLevel cs 0 []
      else splitTopLevel cs depth (current ++ [c])

/-- The discard predicate as claim C8 words it: the first
whitespace-delimited token, case-insensitively, is one of the six keywords,
or the entry begins with a double dash. -/
def claimedConstraintEntry (line : String) : Bool :=
  let firstTok := rustToUppercase ((splitWs line).headD "")
  firstTok == "CONSTRAINT" || firstTok == "PRIMARY" || firstTok == "FOREIGN" ||
  firstTok == "UNIQUE" || firstTok == "CHECK" || firstTok == "INDEX" ||
  strStartsWith line "--"

/-- Column extraction as claim C8 words it: text between the first opening
and last closing parenthesis, split on depth zero commas, entries trimmed,
discarding empty entries and those matching claimedConstraintEntry. -/
def extractColumnsClaimed (ddl : String) : Option (List String) :=
  match firstIdxOf '(' ddl.toList with
  | none => some []
  | some start =>
    match lastIdxOf ')' ddl.toList with
    | none => some []
    | some stop =>
      if start + 1 ≤ stop then
        some ((((splitTopLevel ((ddl.toList.drop (start + 1)).take (stop - (start + 1))) 0 []).map
          (fun l => rustTrim ⟨l⟩)).filter (fun col => col ≠ "" && !claimedConstraintEntry col)))
      else none

/-- Column extraction with the amended discard predicate: the trimmed
uppercased entry starts with CONSTRAINT, PRIMARY KEY, FOREIGN KEY, UNIQUE,
CHECK or INDEX, or the trimmed entry starts with a double dash (this is
isConstraintLine of the code). -/
def extractColumnsAmended (ddl : String) : Option (List String) :=
  match firstIdxOf '(' ddl.toList with
  | none => some []
  | some start =>
    match lastIdxOf ')' ddl.toList with
    | none => some []
    | some stop =>
      if start + 1 ≤ stop then
        some ((((splitTopLevel ((ddl.toList.drop (start + 1)).take (stop - (start + 1))) 0 []).map
          (fun l => rustTrim ⟨l⟩)).filter (fun col => col ≠ "" && !isConstraintLine col)))
      else none

/-- Column parsing as claim C8 words it: entries with at least two
whitespace tokens are kept, the name is the first token with surrounding
double quotes stripped, the definition is the trimmed text. -/
def parseColumnClaimed (colDef : String) : Option (String × String) :=
  let trimmed := rustTrim colDef
  if (splitWs trimmed).length ≥ 2 then
    some (trimMatchesQuote ((splitWs trimmed).headD ""), trimmed)
  else none

/-- The type precedence exactly as claim C3 lists it, on the stored
object_type value. -/
def claimedTypePrecedence (t : String) : Int :=
  if t = "TABLE" then 100
  else if t = "SEQUENCE" then 200
  else if t = "VIEW" then 300
  else if t = "PACKAGE" then 400
  else if t = "PACKAGE BODY" then 500
  else if t = "PROCEDURE" then 600
  else if t = "FUNCTION" then 700
  else if t = "INDEX" then 800
  else if t = "TRIGGER" then 900
  else 1000

/-- The ordering key as claim C3 words it: positive precedence, negated
only for a DROP changeset (source_ddl null). -/
def claimedOrderKey (cs : ChangesetRow) : Int :=
  claimedTypePrecedence cs.object_type * (if cs.source_ddl.isNone then -1 else 1)

/-- The rollback execution order that holds on the code: reverse order
across changesets, forward order within each changeset. -/
def reverseAcrossChangesets : List (ChangesetRow × List ChangeRow) → List (Int × String)
  | [] => []
  | g :: rest =>
      reverseAcrossChangesets rest ++ g.2.map (fun c => (c.id, c.rollback_script))

/-- The rollback execution order as claim C4 words it: the full reverse of
the apply order of the changes. -/
def claimedRollbackOrder (changesets : List ChangesetRow) (changes : List ChangeRow)
    (deployment_id : Int) : List (Int × String) :=
  ((applyOrderChanges (getChangesetsWithChangesOrdered changesets changes
    deployment_id)).reverse).map (fun c => (c.id, c.rollback_script))

/-- The per-delta forward and rollback script list lengths. -/
def deltaLens (d : Delta) : Nat × Nat := (d.scripts.length, d.rollback_scripts.length)

/-- Well-formedness of one catalog object as forced by the C9
counterexample: the DDL is present, and if it contains both an opening and
a closing parenthesis then the first opening one is before the last closing
one. -/
def ddlParenOk (d : String) : Bool :=
  match firstIdxOf '(' d.toList, lastIdxOf ')' d.toList with
  | some a, some b => a + 1 ≤ b
  | _, _ => true

def objWf (o : Object) : Bool := o.ddl.isSome && ddlParenOk (o.ddl.getD "")

/-! ## Concrete fixtures used by counterexamples and witnesses -/

/-- A CREATE changeset (target_ddl null): code order key 100, claimed order
key 100. -/
def c3csCreate : ChangesetRow :=
  { id := 1, deployment_id := 1, object_type := "TABLE", object_name := "T"
    source_ddl := some "x", target_ddl := none }

/-- A MODIFY changeset (both DDLs present): code order key -300, claimed
order key 300. -/
def c3csModify : ChangesetRow :=
  { id := 2, deployment_id := 1, object_type := "VIEW", object_name := "V"
    source_ddl := some "a", target_ddl := some "b" }

def c3FetchedIds : List Int :=
  ((getChangesetsWithChangesOrdered [c3csCreate, c3csModify] [] 1).map Prod.fst).map
    ChangesetRow.id

def c4cs : ChangesetRow :=
  { id := 1, deployment_id := 1, object_type := "TABLE", object_name := "T"
    source_ddl := some "s", target_ddl := some "t" }

def c4c1 : ChangeRow := { id := 1, changeset_id := 1, script := "f1", rollback_script := "r1" }

def c4c2 : ChangeRow := { id := 2, changeset_id := 1, script := "f2", rollback_script := "r2" }

def c10Delta : Delta :=
  { object_type := "TABLE", object_name := "EMP", object_owner := "HR"
    source_ddl := some "s", target_ddl := some "t"
    scripts := ["f1", "f2"], rollback_scripts := ["r1", "r2", "r3"] }

def c7Delta : Delta :=
  { object_type := "TABLE", object_name := "EMP", object_owner := "HR"
    source_ddl := some "s", target_ddl := some "t"
    scripts := ["ALTER TABLE HR.EMP ADD A N", "ALTER TABLE HR.EMP DROP COLUMN \"B\""]
    rollback_scripts := ["ALTER TABLE HR.EMP DROP COLUMN \"A\"", "ALTER TABLE HR.EMP ADD B N"] }

/-! ## Shared helper lemmas -/

theorem filterDeltaList_eq (disabledSet : List String) (ds : List Delta) :
    filterDeltaList disabledSet ds =
      (ds.map (fun d => { d with
        scripts := d.scripts.filter (fun s => !isDisabledDropScript disabledSet s) })).filter
        (fun d => !d.scripts.isEmpty) := by
  induction ds with
  | nil => rfl
  | cons d rest ih =>
      by_cases h : (d.scripts.filter (fun s => !isDisabledDropScript disabledSet s)).isEmpty <;>
        simp [filterDeltaList, List.filter_cons, h, ih]

theorem rollbackCreationOrder_eq (composite : List (ChangesetRow × List ChangeRow)) :
    rollbackCreationOrder composite = reverseAcrossChangesets composite := by
  induction composite with
  | nil => rfl
  | cons g rest ih =>
      simp only [rollbackCreationOrder, reverseAcrossChangesets, List.reverse_cons,
        List.flatMap_append] at *
      rw [ih]
      simp

theorem zip_getElem?_of_getElem? {α β : Type} :
    ∀ (l1 : List α) (l2 : List β) (i : Nat) (a : α) (b : β),
      l1[i]? = some a → l2[i]? = some b → (l1.zip l2)[i]? = some (a, b) := by
  intro l1
  induction l1 with
  | nil => intro l2 i a b h1 _; simp at h1
  | cons x xs ih =>
      intro l2 i a b h1 h2
      cases l2 with
      | nil => simp at h2
      | cons y ys =>
          cases i with
          | zero => simp_all
          | succ n => simpa using ih ys n a b (by simpa using h1) (by simpa using h2)

/-! ## Claim theorems -/

/-- Claim C5, counterexample: a status transition of a Deployment into
ROLLED_BACK (a terminal state) via set_status does not set ended_at —
starting from a fresh row, after the transition the status is terminal but
ended_at is still unset, refuting both the transition clause and the
ended_at-iff-terminal invariant. -/
theorem C5_counterexample :
    deploymentStatusTerminal (deploymentSetStatus {} .rolledBack 5).status = true ∧
    (deploymentSetStatus {} .rolledBack 5).ended_at = none := by decide

/-- Claim C5, amended: set_status on a Deployment stamps started_at on
RUNNING and ended_at on SUCCESS and ERROR only; transitions into
ROLLED_BACK or ROLLBACK_ERROR leave ended_at untouched. A Changeset stamps
started_at in start and ended_at in its end without errors, while end with
errors sets the terminal ERROR status without stamping ended_at, and its
plain set_status stamps nothing; a Change behaves like a Changeset. Hence
ended_at set is not equivalent to the status being terminal. -/
theorem C5_timestamp_behaviour (m : DeploymentRow) (mc : ChangesetRow) (mch : ChangeRow)
    (now : Nat) (errs : List String) (e : String) :
    (deploymentSetStatus m .running now).started_at = some now ∧
    (deploymentSetStatus m .running now).status = .running ∧
    (deploymentSetStatus m .success now).ended_at = some now ∧
    (deploymentSetStatus m .error now).ended_at = some now ∧
    (deploymentSetStatus m .rolledBack now).ended_at = m.ended_at ∧
    (deploymentSetStatus m .rollbackError now).ended_at = m.ended_at ∧
    (changesetSetStatus mc .running now).started_at = mc.started_at ∧
    (changesetStart mc now).started_at = some now ∧
    (changesetEnd mc none now).ended_at = some now ∧
    (changesetEnd mc none now).status = .success ∧
    (changesetEnd mc (some errs) now).status = .error ∧
    (changesetEnd mc (some errs) now).ended_at = mc.ended_at ∧
    (changeStart mch now).started_at = some now ∧
    (changeEnd mch none now).ended_at = some now ∧
    (changeEnd mch none now).status = .success ∧
    (changeEnd mch (some e) now).status = .error ∧
    (changeEnd mch (some e) now).ended_at = mch.ended_at := by
  refine ⟨rfl, rfl, rfl, rfl, rfl, rfl, rfl, rfl, rfl, rfl, rfl, rfl, rfl, rfl, rfl, rfl, rfl⟩

/-- Claim C3, counterexample: the composite fetch returns the MODIFY VIEW
changeset (claimed key 300) before the CREATE TABLE changeset (claimed key
100), because the SQL expression negates the precedence for every changeset
whose target_ddl is non-null, not only for DROPs; so the output is not
ascending in the claimed key. -/
theorem C3_counterexample :
    c3FetchedIds = [2, 1] ∧
    claimedOrderKey c3csCreate < claimedOrderKey c3csModify ∧
    changesetOrderKey c3csModify < changesetOrderKey c3csCreate := by decide

/-- Claim C3, amended: the composite fetch orders the changesets of the
deployment ascending by the key typePrecedence(LOWER(object_type))
multiplied by 1 when target_ddl is null and by -1 otherwise (so DROPs and
MODIFYs are negated, pure CREATEs positive), and returns exactly the
changesets of the deployment. -/
theorem C3_fetch_ordering (changesets : List ChangesetRow) (changes : List ChangeRow)
    (deployment_id : Int) :
    List.Sorted csLe
      ((getChangesetsWithChangesOrdered changesets changes deployment_id).map Prod.fst) ∧
    ((getChangesetsWithChangesOrdered changesets changes deployment_id).map Prod.fst).Perm
      (changesets.filter (fun cs => cs.deployment_id == deployment_id)) := by
  have key : ((getChangesetsWithChangesOrdered changesets changes deployment_id).map Prod.fst)
      = (changesets.filter (fun cs => cs.deployment_id == deployment_id)).insertionSort csLe := by
    unfold getChangesetsWithChangesOrdered
    rw [List.map_map]
    exact List.map_id _
  rw [key]
  exact ⟨List.sorted_insertionSort csLe _, List.perm_insertionSort csLe _⟩

/-- Claim C4, counterexample: for a deployment with one changeset holding
two changes, the rollback rows are created and executed in the forward
order of the changes, not in the reverse order the claim requires. -/
theorem C4_counterexample :
    rollbackExecutionOrder [c4cs] [c4c1, c4c2] 1 = [(1, "r1"), (2, "r2")] ∧
    claimedRollbackOrder [c4cs] [c4c1, c4c2] 1 = [(2, "r2"), (1, "r1")] ∧
    rollbackExecutionOrder [c4cs] [c4c1, c4c2] 1 ≠ claimedRollbackOrder [c4cs] [c4c1, c4c2] 1 := by
  decide

/-- Claim C4, amended: the materialized rollback rows execute in reverse
order across changesets while the changes within each changeset keep their
original forward order (the inner lists are not reversed). -/
theorem C4_rollback_order (changesets : List ChangesetRow) (changes : List ChangeRow)
    (deployment_id : Int) :
    rollbackExecutionOrder changesets changes deployment_id =
      reverseAcrossChangesets (getChangesetsWithChangesOrdered changesets changes deployment_id) :=
  rollbackCreationOrder_eq _

/-- Claim C10: during live prepare, each delta whose source and target DDL
differ yields one changeset whose changes are exactly the pairwise zip of
the forward scripts with the rollback scripts: min(len, len) changes, the
i-th pairing the i-th entries, excess entries of the longer list never
persisted. -/
theorem C10_changes_are_zip (deployment_id : Int) (deltas : List Delta) :
    createChangesets deployment_id deltas =
      (deltas.filter (fun d => !(d.source_ddl == d.target_ddl))).map
        (fun d => (changesetOfDelta deployment_id d, d.scripts.zip d.rollback_scripts)) ∧
    (∀ d : Delta, (d.scripts.zip d.rollback_scripts).length =
      min d.scripts.length d.rollback_scripts.length) ∧
    (∀ (d : Delta) (i : Nat) (s r : String), d.scripts[i]? = some s →
      d.rollback_scripts[i]? = some r →
      (d.scripts.zip d.rollback_scripts)[i]? = some (s, r)) := by
  refine ⟨?_, fun d => by rw [List.length_zip], fun d => zip_getElem?_of_getElem? _ _⟩
  induction deltas with
  | nil => rfl
  | cons d rest ih =>
      by_cases h : d.source_ddl = d.target_ddl <;>
        simp [createChangesets, List.filter_cons, h, ih]

/-- Claim C10, witness at a delta with two forward and three rollback
scripts. -/
theorem C10_witness :
    createChangesets 7 [c10Delta] =
      [(changesetOfDelta 7 c10Delta, [("f1", "r1"), ("f2", "r2")])] ∧
    (c10Delta.scripts.zip c10Delta.rollback_scripts)[0]? = some ("f1", "r1") := by
  have h := C10_changes_are_zip 7 [c10Delta]
  refine ⟨h.1.trans (by decide), h.2.2 c10Delta 0 "f1" "r1" (by decide) (by decide)⟩

/-- Claim C7: for a non-empty disabled_drop_types list, the filter keeps
each delta with exactly those forward scripts whose uppercased text does
not contain DROP followed by an uppercased token, drops a delta whose
filtered forward list is empty, and leaves rollback scripts untouched. -/
theorem C7_drop_type_filter (deltas : List Delta) (l : List String) (hl : l ≠ []) :
    withDisabledDropTypesExcluded deltas (some l) =
      (deltas.map (fun d => { d with
        scripts := d.scripts.filter
          (fun s => !isDisabledDropScript (l.map rustToUppercase) s) })).filter
        (fun d => !d.scripts.isEmpty) := by
  have _h := hl
  simpa [withDisabledDropTypesExcluded] using
    filterDeltaList_eq (l.map rustToUppercase) deltas

/-- Claim C7, witness at a MODIFY delta with an ADD and a DROP COLUMN
forward script and the disabled list COLUMN. -/
theorem C7_witness :
    withDisabledDropTypesExcluded [c7Delta] (some ["COLUMN"]) =
      [{ c7Delta with scripts := ["ALTER TABLE HR.EMP ADD A N"] }] := by
  exact (C7_drop_type_filter [c7Delta] ["COLUMN"] (by decide)).trans (by decide)

/-! ## C2: the disable_all_drops flag (spec-modelled wrapper) -/

theorem sourcePass_triple (tm : List (Triple × Object)) :
    ∀ (S : List Object) (ds : List Delta), sourcePass tm S = some ds →
      ∀ d ∈ ds, (d.object_owner, d.object_name, d.object_type) ∈ S.map tripleOf := by
  intro S
  induction S with
  | nil =>
      intro ds h d hd
      simp [sourcePass] at h
      subst h
      simp at hd
  | cons s rest ih =>
      intro ds h d hd
      cases hf : findScripts (some s) (lookupTriple tm (tripleOf s)) with
      | none => simp [sourcePass, hf] at h
      | some scr =>
        cases hrest : sourcePass tm rest with
        | none => simp [sourcePass, hf, hrest] at h
        | some tail =>
            have hds : ds = mkSourceDelta s (lookupTriple tm (tripleOf s)) scr :: tail := by
              simp [sourcePass, hf, hrest] at h
              exact h.symm
            subst hds
            rcases List.mem_cons.mp hd with rfl | hmem
            · simp [mkSourceDelta, tripleOf]
            · simpa using Or.inr (by simpa using ih tail hrest d hmem)

def c2Src : Object := ⟨"HR", "EMP", "TABLE", 3, some "CREATE TABLE EMP (ID INT)"⟩

def c2Tgt : Object := ⟨"HR", "OLD", "TABLE", 4, some "CREATE TABLE OLD (ID INT)"⟩

def c2OutDelta : Delta :=
  { object_type := "TABLE", object_name := "EMP", object_owner := "HR"
    source_ddl_time := some 3, source_ddl := some "CREATE TABLE EMP (ID INT)"
    target_ddl_time := none, target_ddl := none
    scripts := ["CREATE TABLE EMP (ID INT)"]
    rollback_scripts := ["DROP TABLE HR.EMP"] }

/-- Claim C2 (spec-modelled wrapper): with disable_all_drops true the diff
runs only the source pass, so every emitted Delta carries the triple of a
source object — no DROP delta for an object present only in the target —
and with an empty source the result is empty whatever the target is. -/
theorem C2_disable_all_drops (S T : List Object) (ds : List Delta)
    (h : findDeltasWithDisableAllDrops S T true = some ds) :
    (∀ d ∈ ds, (d.object_owner, d.object_name, d.object_type) ∈ S.map tripleOf) ∧
    (S = [] → ds = []) := by
  have hs : sourcePass (objectsAsMap T) S = some ds := by
    cases hsp : sourcePass (objectsAsMap T) S with
    | none => simp [findDeltasWithDisableAllDrops, hsp] at h
    | some ds1 =>
        simp [findDeltasWithDisableAllDrops, hsp] at h
        rw [h]
  refine ⟨sourcePass_triple _ _ _ hs, ?_⟩
  rintro rfl
  simp [sourcePass] at hs
  exact hs

/-- Claim C2, witness: a source-only object yields a delta whose triple is
the source triple. -/
theorem C2_witness :
    (c2OutDelta.object_owner, c2OutDelta.object_name, c2OutDelta.object_type) ∈
      [c2Src].map tripleOf := by
  have h : findDeltasWithDisableAllDrops [c2Src] [c2Tgt] true = some [c2OutDelta] := by decide
  exact (C2_disable_all_drops [c2Src] [c2Tgt] [c2OutDelta] h).1 c2OutDelta (by simp)

/-! ## C8: column extraction -/

theorem extractLoop_eq_split :
    ∀ (cs : List Char) (depth : Int) (current : List Char),
      extractLoop cs depth current =
        ((splitTopLevel cs depth current).map (fun l => rustTrim ⟨l⟩)).filter
          (fun col => col ≠ "" && !isConstraintLine col) := by
  intro cs
  induction cs with
  | nil => intro depth current; simp [extractLoop, splitTopLevel, List.filter_cons]
  | cons c rest ih =>
      intro depth current
      by_cases h1 : c == '('
      · simp [extractLoop, splitTopLevel, h1, ih]
      · by_cases h2 : c == ')'
        · simp [extractLoop, splitTopLevel, h1, h2, ih]
        · by_cases h3 : c == ',' && depth == 0
          · simp [extractLoop, splitTopLevel, h1, h2, h3, ih, List.filter_cons]
          · simp [extractLoop, splitTopLevel, h1, h2, h3, ih]

theorem extractColumns_eq_amended (ddl : String) :
    extractColumns ddl = extractColumnsAmended ddl := by
  unfold extractColumns extractColumnsAmended
  cases firstIdxOf '(' ddl.toList with
  | none => rfl
  | some start =>
    cases lastIdxOf ')' ddl.toList with
    | none => rfl
    | some stop =>
      by_cases h : start + 1 ≤ stop
      · simp [h, extractLoop_eq_split]
      · simp [h]

theorem parseColumn_eq_claimed (entry : String) : parseColumn entry = parseColumnClaimed entry := by
  by_cases h : rustTrim entry = ""
  · simp [parseColumn, parseColumnClaimed, h]
    decide
  · cases hs : splitWs (rustTrim entry) with
    | nil => simp [parseColumn, parseColumnClaimed, h, hs]
    | cons name tail =>
      cases tail with
      | nil => simp [parseColumn, parseColumnClaimed, h, hs]
      | cons b bs => simp [parseColumn, parseColumnClaimed, h, hs]

def c8Ddl : String := "CREATE TABLE T (CHECKSUM NUMBER, ID INT)"

/-- Claim C8, counterexample: the code discards any entry whose uppercased
text merely starts with one of the keywords, not whose first token equals
one — the column entry CHECKSUM NUMBER is discarded by the code (prefix
CHECK) although its first token CHECKSUM is not in the keyword list, so the
claimed extraction keeps it and the two functions disagree. -/
theorem C8_counterexample :
    extractColumns c8Ddl = some ["ID INT"] ∧
    extractColumnsClaimed c8Ddl = some ["CHECKSUM NUMBER", "ID INT"] ∧
    extractColumns c8Ddl ≠ extractColumnsClaimed c8Ddl := by decide

/-- Claim C8, amended: column extraction takes the text between the first
opening and last closing parenthesis, splits it on commas at parenthesis
depth zero, trims each entry and discards exactly those that are empty,
whose trimmed uppercased text starts with CONSTRAINT, PRIMARY KEY, FOREIGN
KEY, UNIQUE, CHECK or INDEX, or that begin with a double dash; every kept
entry with at least two whitespace tokens is parsed as a column whose name
is the first token with surrounding double quotes stripped. -/
theorem C8_column_extraction (ddl entry : String) :
    extractColumns ddl = extractColumnsAmended ddl ∧
    parseColumn entry = parseColumnClaimed entry :=
  ⟨extractColumns_eq_amended ddl, parseColumn_eq_claimed entry⟩

/-! ## C9: totality of the diff engine -/

theorem extractColumns_isSome (d : String) (h : ddlParenOk d = true) :
    (extractColumns d).isSome := by
  unfold extractColumns
  unfold ddlParenOk at h
  cases h1 : firstIdxOf '(' d.toList with
  | none => simp
  | some a =>
    cases h2 : lastIdxOf ')' d.toList with
    | none => simp
    | some b =>
      rw [h1, h2] at h
      simp only [decide_eq_true_eq] at h
      simp [h]

theorem getUpdateScripts_isSome (s t : Object) (hs : objWf s = true) (ht : objWf t = true) :
    (getUpdateScripts s t).isSome := by
  rw [objWf, Bool.and_eq_true] at hs ht
  obtain ⟨sd, hsd⟩ := Option.isSome_iff_exists.mp hs.1
  obtain ⟨td, htd⟩ := Option.isSome_iff_exists.mp ht.1
  have hsp : ddlParenOk sd = true := by have := hs.2; rwa [hsd] at this
  have htp : ddlParenOk td = true := by have := ht.2; rwa [htd] at this
  obtain ⟨sc, hsc⟩ := Option.isSome_iff_exists.mp (extractColumns_isSome sd hsp)
  obtain ⟨tc, htc⟩ := Option.isSome_iff_exists.mp (extractColumns_isSome td htp)
  unfold getUpdateScripts
  split_ifs with h1 h2 h3
  · simp
  · rw [hsd]; simp
  · simp
  · rw [hsd, htd]
    simp [hsc, htc]

theorem findScripts_isSome (os ot : Option Object) (h1 : ∀ o ∈ os, objWf o = true)
    (h2 : ∀ o ∈ ot, objWf o = true) : (findScripts os ot).isSome := by
  cases os with
  | none =>
    cases ot with
    | none => simp [findScripts]
    | some t =>
        have ht := h2 t rfl
        rw [objWf, Bool.and_eq_true] at ht
        obtain ⟨td, htd⟩ := Option.isSome_iff_exists.mp ht.1
        simp [findScripts, getInsertScripts, htd]
  | some s =>
    cases ot with
    | none =>
        have hs := h1 s rfl
        rw [objWf, Bool.and_eq_true] at hs
        obtain ⟨sd, hsd⟩ := Option.isSome_iff_exists.mp hs.1
        simp [findScripts, getInsertScripts, hsd]
    | some t =>
        obtain ⟨fwd, hfwd⟩ := Option.isSome_iff_exists.mp
          (getUpdateScripts_isSome s t (h1 s rfl) (h2 t rfl))
        obtain ⟨bwd, hbwd⟩ := Option.isSome_iff_exists.mp
          (getUpdateScripts_isSome t s (h2 t rfl) (h1 s rfl))
        simp [findScripts, hfwd, hbwd]

theorem objectsAsMap_sub (T : List Object) : ∀ p ∈ objectsAsMap T, p.2 ∈ T := by
  suffices h : ∀ (l : List Object) (m : List (Triple × Object)),
      (∀ p ∈ m, p.2 ∈ T) → (∀ o ∈ l, o ∈ T) →
      ∀ p ∈ l.foldl (fun m o => insertTriple m (tripleOf o) o) m, p.2 ∈ T by
    intro p hp
    exact h T [] (by simp) (fun o ho => ho) p hp
  intro l
  induction l with
  | nil => intro m hm _ p hp; exact hm p hp
  | cons o rest ih =>
      intro m hm hl p hp
      refine ih (insertTriple m (tripleOf o) o) ?_
        (fun x hx => hl x (List.mem_cons_of_mem _ hx)) p hp
      intro q hq
      unfold insertTriple at hq
      by_cases hc : (List.filter (fun p => p.1 == tripleOf o) m).isEmpty
      · rw [if_pos hc] at hq
        rcases List.mem_append.mp hq with hq | hq
        · exact hm q hq
        · have : q = (tripleOf o, o) := by simpa using hq
          rw [this]
          exact hl o (by simp)
      · rw [if_neg hc] at hq
        rcases List.mem_map.mp hq with ⟨r, hr, hrq⟩
        by_cases hrk : r.1 == tripleOf o
        · rw [if_pos hrk] at hrq
          rw [← hrq]
          exact hl o (by simp)
        · rw [if_neg hrk] at hrq
          rw [← hrq]
          exact hm r hr

theorem lookupTriple_val_mem :
    ∀ (m : List (Triple × Object)) (k : Triple) (o : Object),
      lookupTriple m k = some o → ∃ p ∈ m, p.2 = o := by
  intro m
  induction m with
  | nil => intro k o h; simp [lookupTriple] at h
  | cons p rest ih =>
      intro k o h
      unfold lookupTriple at h
      by_cases hk : p.1 == k
      · rw [if_pos hk] at h
        exact ⟨p, by simp, by simpa using h⟩
      · rw [if_neg hk] at h
        obtain ⟨q, hq, hqo⟩ := ih k o h
        exact ⟨q, List.mem_cons_of_mem _ hq, hqo⟩

theorem mem_some_eq {α : Type} {a b : α} (h : a ∈ (some b : Option α)) : a = b :=
  (Option.some_inj.mp (Option.mem_def.mp h)).symm

theorem sourcePass_isSome (tm : List (Triple × Object)) (S : List Object)
    (hS : ∀ o ∈ S, objWf o = true) (htm : ∀ p ∈ tm, objWf p.2 = true) :
    (sourcePass tm S).isSome := by
  induction S with
  | nil => simp [sourcePass]
  | cons s rest ih =>
      have h1 : (findScripts (some s) (lookupTriple tm (tripleOf s))).isSome := by
        apply findScripts_isSome
        · intro o ho
          rw [mem_some_eq ho]
          exact hS s (by simp)
        · intro o ho
          obtain ⟨p, hp, hpo⟩ :=
            lookupTriple_val_mem tm (tripleOf s) o (Option.mem_def.mp ho)
          rw [← hpo]; exact htm p hp
      obtain ⟨scr, hscr⟩ := Option.isSome_iff_exists.mp h1
      obtain ⟨tl, htl⟩ := Option.isSome_iff_exists.mp
        (ih (fun o ho => hS o (List.mem_cons_of_mem _ ho)))
      simp [sourcePass, hscr, htl]

theorem targetPass_isSome (processed : List Triple) (T : List Object)
    (hT : ∀ o ∈ T, objWf o = true) : (targetPass processed T).isSome := by
  induction T with
  | nil => simp [targetPass]
  | cons t rest ih =>
      have hrest := ih (fun o ho => hT o (List.mem_cons_of_mem _ ho))
      by_cases hp : tripleOf t ∈ processed
      · simpa [targetPass, hp] using hrest
      · have h1 : (findScripts none (some t)).isSome := by
          apply findScripts_isSome
          · intro o ho; simp at ho
          · intro o ho
            rw [mem_some_eq ho]
            exact hT t (by simp)
        obtain ⟨scr, hscr⟩ := Option.isSome_iff_exists.mp h1
        obtain ⟨tl, htl⟩ := Option.isSome_iff_exists.mp hrest
        simp [targetPass, hp, hscr, htl]

theorem findDeltas_isSome (S T : List Object) (hS : ∀ o ∈ S, objWf o = true)
    (hT : ∀ o ∈ T, objWf o = true) : (findDeltas S T).isSome := by
  have htm : ∀ p ∈ objectsAsMap T, objWf p.2 = true :=
    fun p hp => hT p.2 (objectsAsMap_sub T p hp)
  obtain ⟨ds1, h1⟩ := Option.isSome_iff_exists.mp (sourcePass_isSome (objectsAsMap T) S hS htm)
  obtain ⟨ds2, h2⟩ := Option.isSome_iff_exists.mp (targetPass_isSome (S.map tripleOf) T hT)
  simp [findDeltas, h1, h2]

def c9Bad : Object := ⟨"HR", "EMP", "TABLE", 0, some ")("⟩

def c9Other : Object := ⟨"HR", "EMP", "TABLE", 0, some "x"⟩

/-- Claim C9, counterexample: both objects carry a DDL string, yet
find_scripts panics — the TABLE column diff slices the DDL from the
character after the first opening parenthesis to the last closing one, and
for the DDL closing-then-opening that byte range is inverted, which panics
in Rust (modelled as none). -/
theorem C9_counterexample :
    c9Bad.ddl.isSome = true ∧ c9Other.ddl.isSome = true ∧
    findScripts (some c9Bad) (some c9Other) = none := by decide

/-- Claim C9, amended: the diff engine is total over objects that carry a
DDL string in which the first opening parenthesis does not come after the
last closing one (in particular any DDL with balanced parentheses):
find_scripts and find_deltas then return a result without panicking. -/
theorem C9_totality :
    (∀ (os ot : Option Object), (∀ o ∈ os, objWf o = true) → (∀ o ∈ ot, objWf o = true) →
      (findScripts os ot).isSome) ∧
    (∀ (S T : List Object), (∀ o ∈ S, objWf o = true) → (∀ o ∈ T, objWf o = true) →
      (findDeltas S T).isSome) :=
  ⟨findScripts_isSome, findDeltas_isSome⟩

def c9W1 : Object := ⟨"HR", "T1", "TABLE", 0, some "CREATE TABLE T1 (A N)"⟩

def c9W2 : Object := ⟨"HR", "T2", "TABLE", 0, some "CREATE TABLE T2 (B N)"⟩

/-- Claim C9, witness on two well-formed tables. -/
theorem C9_witness :
    (findScripts (some c9W1) (some c9W2)).isSome ∧ (findDeltas [c9W1] [c9W2]).isSome := by
  have h := C9_totality
  refine ⟨h.1 (some c9W1) (some c9W2) ?_ ?_, h.2 [c9W1] [c9W2] ?_ ?_⟩
  · intro o ho
    rw [mem_some_eq ho]; decide
  · intro o ho
    rw [mem_some_eq ho]; decide
  · intro o ho
    have hoe : o = c9W1 := by simpa using ho
    rw [hoe]; decide
  · intro o ho
    have hoe : o = c9W2 := by simpa using ho
    rw [hoe]; decide

/-! ## C6: the runnability guard of apply -/

/-- Claim C6: when the plan of the deployment is already RUNNING, or
another plan in RUNNING status references its source or target connection,
apply returns the corresponding PlanNotRunnable error and the bookkeeping
state is returned unchanged. -/
theorem C6_runnability_guard (db : Db) (execF : String → Except String Unit) (did : Int)
    (failFast : Bool) (now : Nat) (dep : DeploymentRow) (plan : PlanRow)
    (hdep : findDeployment db did = some dep)
    (hplan : findPlan db dep.plan_id = some plan)
    (hcond : plan.status = .running ∨
      (∃ q ∈ db.plans, q ≠ plan ∧ q.status = .running ∧
        (q.source_connection_id = plan.source_connection_id ∨
         q.target_connection_id = plan.source_connection_id)) ∨
      (∃ q ∈ db.plans, q ≠ plan ∧ q.status = .running ∧
        (q.source_connection_id = plan.target_connection_id ∨
         q.target_connection_id = plan.target_connection_id))) :
    ∃ r, applyDeployment db execF did failFast now = (.error (.planNotRunnable r), db) := by
  simp only [applyDeployment, hdep, hplan]
  by_cases h1 : plan.status == PlanStatus.running
  · exact ⟨.alreadyRunning, by simp [h1]⟩
  · have hns : plan.status ≠ PlanStatus.running := by simpa using h1
    by_cases h2 : isConnectionInUse db plan.source_connection_id
    · exact ⟨.sourceInUse, by simp [h1, h2]⟩
    · by_cases h3 : isConnectionInUse db plan.target_connection_id
      · exact ⟨.targetInUse, by simp [h1, h2, h3]⟩
      · exfalso
        rcases hcond with hc | hc | hc
        · exact hns hc
        · obtain ⟨q, hq, _, hqr, hqc⟩ := hc
          apply h2
          rw [isConnectionInUse, List.any_eq_true]
          refine ⟨q, hq, ?_⟩
          rcases hqc with hqc | hqc <;> simp [hqr, hqc]
        · obtain ⟨q, hq, _, hqr, hqc⟩ := hc
          apply h3
          rw [isConnectionInUse, List.any_eq_true]
          refine ⟨q, hq, ?_⟩
          rcases hqc with hqc | hqc <;> simp [hqr, hqc]

def c6Plan : PlanRow :=
  { id := 1, name := "p", status := .idle, source_connection_id := 10, target_connection_id := 11 }

def c6Other : PlanRow :=
  { id := 2, name := "q", status := .running, source_connection_id := 10,
    target_connection_id := 12 }

def c6Dep : DeploymentRow := { id := 5, plan_id := 1 }

def c6Db : Db := { plans := [c6Plan, c6Other], deployments := [c6Dep] }

def c6Exec : String → Except String Unit := fun _ => .ok ()

/-- Claim C6, witness: another RUNNING plan shares the source connection,
so apply on deployment 5 refuses and leaves the state unchanged. -/
theorem C6_witness :
    ∃ r, applyDeployment c6Db c6Exec 5 false 0 = (.error (.planNotRunnable r), c6Db) := by
  apply C6_runnability_guard c6Db c6Exec 5 false 0 c6Dep c6Plan (by decide) (by decide)
  exact Or.inr (Or.inl ⟨c6Other, by decide, by decide, by decide, Or.inl (by decide)⟩)

/-! ## C1: paired script list lengths -/

theorem alookup_eq_none_iff (m : ColMap) (k : String) :
    alookup m k = none ↔ ∀ p ∈ m, p.1 ≠ k := by
  induction m with
  | nil => simp [alookup]
  | cons p rest ih =>
      unfold alookup
      by_cases h : p.1 == k
      · simp only [beq_iff_eq] at h
        simp [h]
      · simp only [beq_iff_eq] at h
        simp [h, ih]

theorem insertPair_keys_nodup (m : ColMap) (k v : String)
    (h : (m.map Prod.fst).Nodup) : ((insertPair m k v).map Prod.fst).Nodup := by
  unfold insertPair
  by_cases hc : containsKey m k
  · rw [if_pos hc, List.map_map]
    have he : (Prod.fst ∘ fun p : String × String => if p.1 == k then (p.1, v) else p)
        = Prod.fst := by
      funext p
      by_cases hp : p.1 = k <;> simp [hp]
    rw [he]
    exact h
  · rw [if_neg hc, List.map_append]
    rw [List.nodup_append]
    refine ⟨h, by simp, ?_⟩
    intro x hx
    have hnone : alookup m k = none := by
      unfold containsKey at hc
      cases halo : alookup m k with
      | none => rfl
      | some v0 => rw [halo] at hc; simp at hc
    have hne := (alookup_eq_none_iff m k).mp hnone
    obtain ⟨p, hp, rfl⟩ := List.mem_map.mp hx
    simp only [List.map_cons, List.map_nil, List.mem_singleton]
    exact fun hek => hne p hp hek

theorem buildColMap_keys_nodup (cols : List String) :
    ((buildColMap cols).map Prod.fst).Nodup := by
  suffices h : ∀ (l : List String) (m : ColMap), (m.map Prod.fst).Nodup →
      ((l.foldl (fun m c => match parseColumn c with
        | some (n, d) => insertPair m n d
        | none => m) m).map Prod.fst).Nodup by
    exact h cols [] (by simp)
  intro l
  induction l with
  | nil => intro m hm; exact hm
  | cons c rest ih =>
      intro m hm
      cases hp : parseColumn c with
      | none => simpa [hp] using ih m hm
      | some nd => simpa [hp] using ih (insertPair m nd.1 nd.2) (insertPair_keys_nodup m _ _ hm)

theorem alookup_eq_some_of_mem (m : ColMap) (h : (m.map Prod.fst).Nodup) {k v : String}
    (hm : (k, v) ∈ m) : alookup m k = some v := by
  induction m with
  | nil => simp at hm
  | cons p rest ih =>
      have h' : p.1 ∉ rest.map Prod.fst ∧ (rest.map Prod.fst).Nodup := by
        rw [List.map_cons, List.nodup_cons] at h
        exact h
      rcases List.mem_cons.mp hm with heq | hmem
      · rw [← heq]
        simp [alookup]
      · have hk : k ∈ rest.map Prod.fst := List.mem_map.mpr ⟨(k, v), hmem, rfl⟩
        have hne : p.1 ≠ k := fun he => h'.1 (he ▸ hk)
        unfold alookup
        rw [if_neg (by simpa using hne)]
        exact ih h'.2 hmem

theorem mem_of_alookup_eq_some :
    ∀ (m : ColMap) (k v : String), alookup m k = some v → (k, v) ∈ m := by
  intro m
  induction m with
  | nil => intro k v h; simp [alookup] at h
  | cons p rest ih =>
      intro k v h
      unfold alookup at h
      by_cases hk : p.1 == k
      · rw [if_pos hk] at h
        have h1 : p.1 = k := by simpa using hk
        have h2 : p.2 = v := by simpa using h
        have hpe : (k, v) = p := by rw [← h1, ← h2]
        rw [hpe]
        exact List.mem_cons_self _ _
      · rw [if_neg hk] at h
        exact List.mem_cons_of_mem _ (ih k v h)

theorem mem_filter_modify_keys (A B : ColMap) (hA : (A.map Prod.fst).Nodup) (n : String) :
    n ∈ (A.filter (modifyPred B)).map Prod.fst ↔
      ∃ a b, alookup A n = some a ∧ alookup B n = some b ∧ a ≠ b := by
  constructor
  · intro hn
    obtain ⟨p, hpmem, rfl⟩ := List.mem_map.mp hn
    obtain ⟨hpA, hpPred⟩ := List.mem_filter.mp hpmem
    unfold modifyPred at hpPred
    cases halo : alookup B p.1 with
    | none => rw [halo] at hpPred; simp at hpPred
    | some td =>
        rw [halo] at hpPred
        simp only [decide_eq_true_eq] at hpPred
        refine ⟨p.2, td, ?_, ?_, fun he => hpPred he.symm⟩
        · exact alookup_eq_some_of_mem A hA hpA
        · rfl
  · rintro ⟨a, b, ha, hb, hab⟩
    refine List.mem_map.mpr ⟨(n, a), List.mem_filter.mpr ⟨mem_of_alookup_eq_some A n a ha, ?_⟩, rfl⟩
    unfold modifyPred
    rw [hb]
    simpa using hab.symm

theorem modsCount (A B : ColMap) (hA : (A.map Prod.fst).Nodup) (hB : (B.map Prod.fst).Nodup) :
    (A.filter (modifyPred B)).length = (B.filter (modifyPred A)).length := by
  have nodupA : ((A.filter (modifyPred B)).map Prod.fst).Nodup :=
    List.Nodup.sublist (List.Sublist.map Prod.fst (List.filter_sublist _)) hA
  have nodupB : ((B.filter (modifyPred A)).map Prod.fst).Nodup :=
    List.Nodup.sublist (List.Sublist.map Prod.fst (List.filter_sublist _)) hB
  have h1 : (A.filter (modifyPred B)).length
      = ((A.filter (modifyPred B)).map Prod.fst).toFinset.card := by
    rw [List.toFinset_card_of_nodup nodupA, List.length_map]
  have h2 : (B.filter (modifyPred A)).length
      = ((B.filter (modifyPred A)).map Prod.fst).toFinset.card := by
    rw [List.toFinset_card_of_nodup nodupB, List.length_map]
  rw [h1, h2]
  congr 1
  ext n
  rw [List.mem_toFinset, List.mem_toFinset, mem_filter_modify_keys A B hA n,
    mem_filter_modify_keys B A hB n]
  constructor
  · rintro ⟨a, b, ha, hb, hab⟩; exact ⟨b, a, hb, ha, hab.symm⟩
  · rintro ⟨b, a, hb, ha, hab⟩; exact ⟨a, b, ha, hb, hab.symm⟩

theorem getUpdateScripts_symm_length (s t : Object) (hty : s.object_type = t.object_type)
    (fs rs : List String) (hf : getUpdateScripts s t = some fs)
    (hr : getUpdateScripts t s = some rs) : fs.length = rs.length := by
  unfold getUpdateScripts at hf hr
  by_cases h1 : s.ddl = t.ddl
  · rw [if_pos h1] at hf
    rw [if_pos h1.symm] at hr
    have hf' : fs = [] := (Option.some_inj.mp hf).symm
    have hr' : rs = [] := (Option.some_inj.mp hr).symm
    rw [hf', hr']
  · rw [if_neg h1] at hf
    rw [if_neg (fun he => h1 he.symm)] at hr
    by_cases h2 : s.object_type = "TABLE"
    · have h2t : t.object_type = "TABLE" := by rw [← hty]; exact h2
      rw [if_neg (not_not_intro h2)] at hf
      rw [if_neg (not_not_intro h2t)] at hr
      by_cases h3 : (s.ddl.isNone || t.ddl.isNone : Bool)
      · rw [if_pos h3] at hf
        rw [if_pos (by rwa [Bool.or_comm] at h3)] at hr
        have hf' : fs = [] := (Option.some_inj.mp hf).symm
        have hr' : rs = [] := (Option.some_inj.mp hr).symm
        rw [hf', hr']
      · rw [if_neg h3] at hf
        rw [if_neg (by rw [Bool.or_comm]; exact h3)] at hr
        have hboth : s.ddl.isSome ∧ t.ddl.isSome := by
          cases hx : s.ddl <;> cases hy : t.ddl <;> simp [hx, hy] at h3 ⊢
        obtain ⟨sd, hsd⟩ := Option.isSome_iff_exists.mp hboth.1
        obtain ⟨td, htd⟩ := Option.isSome_iff_exists.mp hboth.2
        rw [hsd, htd] at hf
        rw [htd, hsd] at hr
        cases hesc : extractColumns sd with
        | none => simp [hesc] at hf
        | some sc =>
          cases hetc : extractColumns td with
          | none => simp [hesc, hetc] at hf
          | some tc =>
              simp [hesc, hetc] at hf hr
              rw [← hf, ← hr]
              simp only [List.length_append, List.length_map]
              have hmods := modsCount (buildColMap sc) (buildColMap tc)
                (buildColMap_keys_nodup sc) (buildColMap_keys_nodup tc)
              omega
    · have h2t : t.object_type ≠ "TABLE" := by rw [← hty]; exact h2
      rw [if_pos h2] at hf
      rw [if_pos h2t] at hr
      cases hx : s.ddl with
      | none => rw [hx] at hf; simp at hf
      | some sd =>
        cases hy : t.ddl with
        | none => rw [hy] at hr; simp at hr
        | some td =>
            rw [hx] at hf
            rw [hy] at hr
            have hf' : fs = [sd] := by simpa using hf.symm
            have hr' : rs = [td] := by simpa using hr.symm
            rw [hf', hr']
            rfl

theorem findScripts_symm_length (os ot : Option Object) (oscr : Option Scripts)
    (hty : ∀ s t, os = some s → ot = some t → s.object_type = t.object_type)
    (h : findScripts os ot = some oscr) :
    ∀ scr, oscr = some scr → scr.scripts.length = scr.rollback_scripts.length := by
  intro scr hscr
  subst hscr
  cases os with
  | none =>
    cases ot with
    | none => simp [findScripts] at h
    | some t =>
        cases hx : t.ddl with
        | none => simp [findScripts, getInsertScripts, hx] at h
        | some td =>
            simp [findScripts, getInsertScripts, hx] at h
            rw [← h]
            simp [getDeleteScripts]
  | some s =>
    cases ot with
    | none =>
        cases hx : s.ddl with
        | none => simp [findScripts, getInsertScripts, hx] at h
        | some sd =>
            simp [findScripts, getInsertScripts, hx] at h
            rw [← h]
            simp [getDeleteScripts]
    | some t =>
        cases hfwd : getUpdateScripts s t with
        | none => simp [findScripts, hfwd] at h
        | some fwd =>
          cases hbwd : getUpdateScripts t s with
          | none => simp [findScripts, hfwd, hbwd] at h
          | some bwd =>
              simp [findScripts, hfwd, hbwd] at h
              rw [← h]
              exact getUpdateScripts_symm_length s t (hty s t rfl rfl) fwd bwd hfwd hbwd

theorem objectsAsMap_triple (T : List Object) : ∀ p ∈ objectsAsMap T, tripleOf p.2 = p.1 := by
  suffices h : ∀ (l : List Object) (m : List (Triple × Object)),
      (∀ p ∈ m, tripleOf p.2 = p.1) →
      ∀ p ∈ l.foldl (fun m o => insertTriple m (tripleOf o) o) m, tripleOf p.2 = p.1 by
    exact fun p hp => h T [] (by simp) p hp
  intro l
  induction l with
  | nil => intro m hm p hp; exact hm p hp
  | cons o rest ih =>
      intro m hm p hp
      refine ih (insertTriple m (tripleOf o) o) ?_ p hp
      intro q hq
      unfold insertTriple at hq
      by_cases hc : (List.filter (fun p => p.1 == tripleOf o) m).isEmpty
      · rw [if_pos hc] at hq
        rcases List.mem_append.mp hq with hq | hq
        · exact hm q hq
        · have hqe : q = (tripleOf o, o) := by simpa using hq
          rw [hqe]
      · rw [if_neg hc] at hq
        rcases List.mem_map.mp hq with ⟨r, hr, hrq⟩
        by_cases hrk : r.1 == tripleOf o
        · rw [if_pos hrk] at hrq
          rw [← hrq]
          have hre : r.1 = tripleOf o := by simpa using hrk
          rw [hre]
        · rw [if_neg hrk] at hrq
          rw [← hrq]
          exact hm r hr

theorem lookupTriple_pair :
    ∀ (m : List (Triple × Object)) (k : Triple) (o : Object),
      lookupTriple m k = some o → (k, o) ∈ m := by
  intro m
  induction m with
  | nil => intro k o h; simp [lookupTriple] at h
  | cons p rest ih =>
      intro k o h
      unfold lookupTriple at h
      by_cases hk : p.1 == k
      · rw [if_pos hk] at h
        have h1 : p.1 = k := by simpa using hk
        have h2 : p.2 = o := by simpa using h
        have hpe : (k, o) = p := by rw [← h1, ← h2]
        rw [hpe]
        exact List.mem_cons_self _ _
      · rw [if_neg hk] at h
        exact List.mem_cons_of_mem _ (ih k o h)

theorem sourcePass_lengths (tm : List (Triple × Object))
    (htm : ∀ p ∈ tm, tripleOf p.2 = p.1) :
    ∀ (S : List Object) (ds : List Delta), sourcePass tm S = some ds →
      ∀ d ∈ ds, d.scripts.length = d.rollback_scripts.length := by
  intro S
  induction S with
  | nil =>
      intro ds h d hd
      simp [sourcePass] at h
      subst h
      simp at hd
  | cons s rest ih =>
      intro ds h d hd
      cases hf : findScripts (some s) (lookupTriple tm (tripleOf s)) with
      | none => simp [sourcePass, hf] at h
      | some scr =>
        cases hrest : sourcePass tm rest with
        | none => simp [sourcePass, hf, hrest] at h
        | some tail =>
            have hds : ds = mkSourceDelta s (lookupTriple tm (tripleOf s)) scr :: tail := by
              simp [sourcePass, hf, hrest] at h
              exact h.symm
            subst hds
            rcases List.mem_cons.mp hd with rfl | hmem
            · have hty : ∀ s' t', (some s : Option Object) = some s' →
                  lookupTriple tm (tripleOf s) = some t' → s'.object_type = t'.object_type := by
                intro s' t' hs' ht'
                have hs'' : s' = s := by simpa using hs'.symm
                have htr := htm _ (lookupTriple_pair tm (tripleOf s) t' ht')
                have h3 : t'.object_type = s.object_type :=
                  congrArg (fun tr : Triple => tr.2.2) htr
                rw [hs'', ← h3]
              cases scr with
              | none => simp [mkSourceDelta]
              | some sc =>
                  have := findScripts_symm_length (some s) (lookupTriple tm (tripleOf s))
                    (some sc) hty hf sc rfl
                  simpa [mkSourceDelta] using this
            · exact ih tail hrest d hmem

theorem targetPass_lengths (processed : List Triple) :
    ∀ (T : List Object) (ds : List Delta), targetPass processed T = some ds →
      ∀ d ∈ ds, d.scripts.length = d.rollback_scripts.length := by
  intro T
  induction T with
  | nil =>
      intro ds h d hd
      simp [targetPass] at h
      subst h
      simp at hd
  | cons t rest ih =>
      intro ds h d hd
      by_cases hp : tripleOf t ∈ processed
      · simp [targetPass, hp] at h
        exact ih ds h d hd
      · cases hf : findScripts none (some t) with
        | none => simp [targetPass, hp, hf] at h
        | some scr =>
          cases hrest : targetPass processed rest with
          | none => simp [targetPass, hp, hf, hrest] at h
          | some tail =>
              have hds : ds = mkTargetDelta t scr :: tail := by
                simp [targetPass, hp, hf, hrest] at h
                exact h.symm
              subst hds
              rcases List.mem_cons.mp hd with rfl | hmem
              · cases scr with
                | none => simp [mkTargetDelta]
                | some sc =>
                    have := findScripts_symm_length none (some t) (some sc)
                      (by intro s' t' hs' _; simp at hs') hf sc rfl
                    simpa [mkTargetDelta] using this
              · exact ih tail hrest d hmem

def c1Src : Object := ⟨"HR", "EMP", "TABLE", 0, some "CREATE TABLE EMP (ID INT, AGE NUMBER)"⟩

def c1Tgt : Object :=
  ⟨"HR", "EMP", "TABLE", 0, some "CREATE TABLE EMP (ID INT, NAME VARCHAR2(100))"⟩

def c1CexDeltas : List Delta :=
  withDisabledDropTypesExcluded ((findDeltas [c1Src] [c1Tgt]).getD []) (some ["COLUMN"])

/-- Claim C1, counterexample: diffing two one-table catalogs produces a
MODIFY delta with forward scripts ADD AGE and DROP COLUMN NAME and two
rollback scripts; the drop-type filter with the COLUMN token then removes
only the forward DROP COLUMN script, so the produced delta has one forward
and two rollback scripts — unequal lengths. -/
theorem C1_counterexample :
    (findDeltas [c1Src] [c1Tgt]).isSome = true ∧ c1CexDeltas.map deltaLens = [(1, 2)] := by
  decide

/-- Claim C1, amended: every Delta produced by find_deltas alone has
scripts and rollback_scripts of equal length; after
with_disabled_drop_types_excluded every surviving Delta satisfies only
scripts length at most rollback_scripts length, because the filter removes
forward scripts and never rollback scripts. -/
theorem C1_script_lengths (S T : List Object) (ds : List Delta)
    (h : findDeltas S T = some ds) :
    (∀ d ∈ ds, d.scripts.length = d.rollback_scripts.length) ∧
    (∀ (l : List String), ∀ d' ∈ withDisabledDropTypesExcluded ds (some l),
      d'.scripts.length ≤ d'.rollback_scripts.length) := by
  cases h1 : sourcePass (objectsAsMap T) S with
  | none => simp [findDeltas, h1] at h
  | some ds1 =>
    cases h2 : targetPass (S.map tripleOf) T with
    | none => simp [findDeltas, h1, h2] at h
    | some ds2 =>
        have hds : ds = ds1 ++ ds2 := by
          simp [findDeltas, h1, h2] at h
          exact h.symm
        have hall : ∀ d ∈ ds, d.scripts.length = d.rollback_scripts.length := by
          rw [hds]
          intro d hd
          rcases List.mem_append.mp hd with hd | hd
          · exact sourcePass_lengths (objectsAsMap T) (objectsAsMap_triple T) S ds1 h1 d hd
          · exact targetPass_lengths (S.map tripleOf) T ds2 h2 d hd
        refine ⟨hall, ?_⟩
        intro l d' hd'
        rw [withDisabledDropTypesExcluded, filterDeltaList_eq] at hd'
        obtain ⟨hd'1, _⟩ := List.mem_filter.mp hd'
        obtain ⟨d, hdmem, rfl⟩ := List.mem_map.mp hd'1
        calc (d.scripts.filter
              (fun s => !isDisabledDropScript (l.map rustToUppercase) s)).length
            ≤ d.scripts.length := List.length_filter_le _ _
          _ = d.rollback_scripts.length := hall d hdmem

def c1wSrc : Object := ⟨"HR", "EMP", "TABLE", 6, some "CREATE TABLE EMP (ID INT)"⟩

def c1wDelta : Delta :=
  { object_type := "TABLE", object_name := "EMP", object_owner := "HR"
    source_ddl_time := some 6, source_ddl := some "CREATE TABLE EMP (ID INT)"
    target_ddl_time := none, target_ddl := none
    scripts := ["CREATE TABLE EMP (ID INT)"]
    rollback_scripts := ["DROP TABLE HR.EMP"] }

/-- Claim C1, witness on a source-only catalog. -/
theorem C1_witness : c1wDelta.scripts.length = c1wDelta.rollback_scripts.length := by
  have h : findDeltas [c1wSrc] [] = some [c1wDelta] := by decide
  exact (C1_script_lengths [c1wSrc] [] [c1wDelta] h).1 c1wDelta (by simp)

end Leaf
